import Mathlib

/-!
Verification of the linkedin-jobs-scraper repository core
(`src/extractors/linkedin_parser.py`, `src/utils/data_exporter.py`)
against its natural-language specification, via a shallow embedding.

External collaborators (the `requests` HTTP client, `urllib.parse`,
BeautifulSoup's DOM and CSS selection, the filesystem) are modelled by
explicit inputs: an attempt function for the fetcher, a DOM tree for the
parser, a parent-directory-exists flag and an I/O event trace for the
exporter.
-/

namespace Scraper

/-! ## Python string primitives

Structurally recursive character-list implementations of the Python
string operations the scraper and its `urllib`/`str` collaborators use
(`str.lower`, `str.strip`, `str.split(sep)`, `sep.join`, slicing, UTF-8
encoding), so every definition evaluates by kernel reduction. -/

/-- `str.lower` (ASCII, which is all the code compares). -/
def strToLower (s : String) : String :=
  String.mk (s.data.map Char.toLower)

/-- `str.strip()`: drop leading and trailing whitespace. -/
def strStrip (s : String) : String :=
  String.mk
    (((s.data.dropWhile Char.isWhitespace).reverse.dropWhile
      Char.isWhitespace).reverse)

/-- `sep.join(parts)`. -/
def strJoin (sep : String) : List String → String
  | [] => ""
  | [x] => x
  | x :: xs => x ++ sep ++ strJoin sep xs

/-- `s.split(c)` for a one-character separator: every occurrence splits,
empty pieces are kept (`"".split(c) == [""]`). -/
def splitOnCharAux (c : Char) : List Char → List Char → List String
  | [], acc => [String.mk acc.reverse]
  | x :: xs, acc =>
    if x = c then String.mk acc.reverse :: splitOnCharAux c xs []
    else splitOnCharAux c xs (x :: acc)

def splitOnChar (c : Char) (s : String) : List String :=
  splitOnCharAux c s.data []

/-- `s.startswith(pre)`. -/
def strStartsWith (s pre : String) : Bool :=
  pre.data.isPrefixOf s.data

/-- `s[n:]` (character-based slicing, as in Python). -/
def strDrop (s : String) (n : Nat) : String :=
  String.mk (s.data.drop n)

/-- The UTF-8 bytes of one character. -/
def charUtf8 (c : Char) : List Nat :=
  let n := c.toNat
  if n < 0x80 then [n]
  else if n < 0x800 then [0xC0 + n / 64, 0x80 + n % 64]
  else if n < 0x10000 then
    [0xE0 + n / 4096, 0x80 + (n / 64) % 64, 0x80 + n % 64]
  else
    [0xF0 + n / 262144, 0x80 + (n / 4096) % 64, 0x80 + (n / 64) % 64,
     0x80 + n % 64]

/-! ## Page fetcher (`LinkedInJobScraper._fetch_page`)

The network is modelled by `attemptFn : Nat → Except String String`:
attempt number `i` (1-based, as in the Python loop
`for attempt in range(1, self.max_retries + 1)`) either returns the
response text (`.ok`) or fails (`.error e`, covering both non-2xx
`raise_for_status` and transport failures — the code catches every
`Exception`).  `FetchFailure.fetchError cause` models `raise last_exc`
after the loop; `FetchFailure.assertionError` models the
`assert last_exc is not None` firing when `max_retries < 1`. -/

inductive FetchFailure where
  | fetchError (cause : String)
  | assertionError
  deriving Repr, DecidableEq

/-- The retry loop body: `attempt` is the current 1-based attempt number,
`remaining` the number of iterations left, `last` the `last_exc` variable. -/
def fetchAux (attemptFn : Nat → Except String String) :
    Nat → Nat → Option String → Except FetchFailure String
  | _, 0, some e => .error (.fetchError e)
  | _, 0, none => .error .assertionError
  | attempt, remaining + 1, last =>
    match attemptFn attempt with
    | .ok t => .ok t
    | .error e => fetchAux attemptFn (attempt + 1) remaining (some e)

/-- `_fetch_page`: run attempts `1 .. maxRetries`; return the first success,
else propagate the last failure. -/
def fetchPage (attemptFn : Nat → Except String String) (maxRetries : Nat) :
    Except FetchFailure String :=
  fetchAux attemptFn 1 maxRetries none

/-! ## Pagination driver (`LinkedInJobScraper.scrape_search`) and
job records -/

/-- The `JobPosting` dataclass. -/
structure JobPosting where
  job_title : String
  company_name : String
  location : String
  date_posted : String
  job_description : String
  seniority_level : String
  employment_type : String
  industries : List String
  deriving Repr, DecidableEq

/-- The dictionary produced by `JobPosting.to_dict` (`asdict`): same
fixed key set, so it is a record with the same eight fields. -/
structure JobDict where
  job_title : String
  company_name : String
  location : String
  date_posted : String
  job_description : String
  seniority_level : String
  employment_type : String
  industries : List String
  deriving Repr, DecidableEq

def JobPosting.to_dict (j : JobPosting) : JobDict :=
  { job_title := j.job_title
    company_name := j.company_name
    location := j.location
    date_posted := j.date_posted
    job_description := j.job_description
    seniority_level := j.seniority_level
    employment_type := j.employment_type
    industries := j.industries }

/-- The inner `for job in page_jobs` loop of `scrape_search`:
append `job.to_dict()` for each job, breaking once
`len(all_jobs) >= max_jobs`. -/
def appendUpTo (acc : List JobDict) (jobs : List JobPosting) (maxJobs : Nat) :
    List JobDict :=
  match jobs with
  | [] => acc
  | j :: rest =>
    if maxJobs ≤ (acc ++ [j.to_dict]).length then acc ++ [j.to_dict]
    else appendUpTo (acc ++ [j.to_dict]) rest maxJobs

/-- Proof, needed for the termination of `scrapeAux` below, that a
non-empty page strictly grows the accumulator. -/
def length_appendUpTo_lt (acc : List JobDict) (jobs : List JobPosting)
    (m : Nat) (hjobs : jobs ≠ []) :
    acc.length < (appendUpTo acc jobs m).length := by
  induction jobs generalizing acc with
  | nil => exact absurd rfl hjobs
  | cons j rest ih =>
    rw [show appendUpTo acc (j :: rest) m =
      (if m ≤ (acc ++ [j.to_dict]).length then acc ++ [j.to_dict]
       else appendUpTo (acc ++ [j.to_dict]) rest m) from rfl]
    by_cases hm : m ≤ (acc ++ [j.to_dict]).length
    · rw [if_pos hm]; simp
    · rw [if_neg hm]
      rcases eq_or_ne rest [] with hrest | hrest
      · subst hrest
        rw [show appendUpTo (acc ++ [j.to_dict]) [] m =
          acc ++ [j.to_dict] from rfl]
        simp
      · exact lt_trans (by simp) (ih (acc ++ [j.to_dict]) hrest)

/-- The `while len(all_jobs) < max_jobs` loop of `scrape_search`.
`pages start` is the result of `parse_listings(_fetch_page(paged_url))`
for offset `start` (fetch and extraction stubbed as one function of the
offset, as the spec's test properties do).  Returns the accumulated job
dicts together with the number of fetch calls issued. -/
def scrapeAux (pages : Nat → List JobPosting) (maxJobs : Nat) :
    Nat → List JobDict → Nat → List JobDict × Nat
  | start, acc, fetches =>
    if h : acc.length < maxJobs then
      if hp : pages start = [] then (acc, fetches + 1)
      else
        scrapeAux pages maxJobs (start + 25)
          (appendUpTo acc (pages start) maxJobs) (fetches + 1)
    else (acc, fetches)
  termination_by start acc _ => maxJobs - acc.length
  decreasing_by
    have := length_appendUpTo_lt acc (pages start) maxJobs hp
    omega

/-- `scrape_search(search_url, max_jobs)`: offset starts at 0 and advances
by the fixed page-size guess 25. -/
def scrapeSearch (pages : Nat → List JobPosting) (maxJobs : Nat) :
    List JobDict × Nat :=
  scrapeAux pages maxJobs 0 [] 0

/-! ## Record exporter (`DataExporter.export`)

File-system effects are modelled by an explicit event trace:
`IOEvent.makeDirs` is `os.makedirs` creating the missing parent directory
of the output path inside `_ensure_parent_dir`, `IOEvent.write fmt` is the
per-format writer (`_export_json`, …) touching the output file.  The
output path itself is irrelevant to the trace shape; what matters is
whether its parent directory already exists (`parentExists`).  The second
component is the `ValueError` message, if one is raised. -/

inductive IOEvent where
  | makeDirs
  | write (fmt : String)
  deriving Repr, DecidableEq

/-- `DataExporter._ensure_parent_dir`: `os.makedirs` runs only when the
parent directory is missing (the parent of an absolute path is never the
empty string, so only the existence test matters). -/
def ensure_parent_dir (parentExists : Bool) : List IOEvent :=
  if parentExists then [] else [IOEvent.makeDirs]

/-- `DataExporter.export(data, fmt, path)` (`export` is a Lean keyword,
hence the name): lowercase the format, reject an empty record list,
ensure the parent directory, then dispatch on the format, rejecting
unknown formats. -/
def exportData (records : List JobDict) (fmt : String) (parentExists : Bool) :
    List IOEvent × Option String :=
  let f := strToLower fmt
  if records.isEmpty then ([], some "No records to export.")
  else
    let dirEvents := ensure_parent_dir parentExists
    if f = "json" then (dirEvents ++ [IOEvent.write "json"], none)
    else if f = "csv" then (dirEvents ++ [IOEvent.write "csv"], none)
    else if f = "excel" then (dirEvents ++ [IOEvent.write "excel"], none)
    else if f = "xml" then (dirEvents ++ [IOEvent.write "xml"], none)
    else if f = "html" then (dirEvents ++ [IOEvent.write "html"], none)
    else (dirEvents, some ("Unsupported export format: " ++ f))

/-! ## DOM and CSS selection (BeautifulSoup collaborator)

`parse_listings` receives an HTML string and immediately hands it to
`BeautifulSoup(html, "lxml")`; lxml recovers from arbitrarily malformed
input and always yields a document tree, so the embedding takes the
parsed tree as input.  Every CSS selector used by the scraper has the
shape `tag` or `tag.class`; `select` returns the matching *descendants*
of a node in document (pre-order) order, `select_one` the first of them.
`get_text(sep, strip=True)` joins the stripped non-empty descendant text
fragments with `sep`. -/

mutual
inductive Node where
  | text (s : String)
  | element (tag : String) (classes : List String) (children : Forest)
inductive Forest where
  | nil
  | cons (n : Node) (ns : Forest)
end

def Forest.ofList : List Node → Forest
  | [] => .nil
  | n :: ns => .cons n (Forest.ofList ns)

def Forest.toList : Forest → List Node
  | .nil => []
  | .cons n ns => n :: ns.toList

/-- Element-node literal builder: a tag with classes and children. -/
def el (tag : String) (classes : List String) (children : List Node) : Node :=
  .element tag classes (Forest.ofList children)

/-- A parsed CSS selector of the only shape the scraper uses:
a tag name with at most one required class. -/
structure Selector where
  tag : String
  cls : Option String

def parseSelector (s : String) : Selector :=
  match splitOnChar '.' s with
  | [] => ⟨"", none⟩
  | [t] => ⟨t, none⟩
  | t :: c :: _ => ⟨t, some c⟩

def Node.matchesSel (n : Node) (sel : Selector) : Bool :=
  match n with
  | .text _ => false
  | .element tag classes _ =>
    tag = sel.tag &&
      (match sel.cls with
       | none => true
       | some c => classes.contains c)

/-! `selectNode`/`selectForest`: all matching elements of a node's
subtree (including the node itself) and of a forest, in document
(pre-order) order — each node before its descendants. -/

mutual
def selectNode (sel : Selector) : Node → List Node
  | .text s => []
  | .element t cls ch =>
    (if (Node.element t cls ch).matchesSel sel then [Node.element t cls ch]
     else []) ++ selectForest sel ch
def selectForest (sel : Selector) : Forest → List Node
  | .nil => []
  | .cons n ns => selectNode sel n ++ selectForest sel ns
end

/-- `node.select(sel)`: matching strict descendants of `node`. -/
def Node.select (n : Node) (sel : String) : List Node :=
  match n with
  | .text _ => []
  | .element _ _ ch => selectForest (parseSelector sel) ch

/-- `node.select_one(sel)`: first match in document order, if any. -/
def Node.selectOne (n : Node) (sel : String) : Option Node :=
  (n.select sel).head?

/-! `textFragmentsNode`/`textFragmentsForest`: the descendant text
fragments of a subtree/forest, in document order. -/

mutual
def textFragmentsNode : Node → List String
  | .text s => [s]
  | .element _ _ ch => textFragmentsForest ch
def textFragmentsForest : Forest → List String
  | .nil => []
  | .cons n ns => textFragmentsNode n ++ textFragmentsForest ns
end

/-- `node.get_text(sep, strip=True)`: strip each fragment, drop the ones
that become empty, join with `sep`. -/
def Node.getText (n : Node) (sep : String) : String :=
  strJoin sep
    (((textFragmentsNode n).map strStrip).filter (fun s => s ≠ ""))

/-! ## Listing extractor (`parse_listings`, `_parse_single_card`) -/

/-- The `safe_text` helper in `_parse_single_card`:
`card.select_one(selector).get_text(strip=True)`, or `""` when nothing
matches. -/
def safeText (card : Node) (sel : String) : String :=
  match card.selectOne sel with
  | some el => el.getText ""
  | none => ""

/-- Python's `or` on strings: first operand unless it is empty. -/
def orStr (a b : String) : String := if a = "" then b else a

/-- The four-step title fallback chain of `_parse_single_card`. -/
def titleOf (card : Node) : String :=
  orStr (safeText card "a.job-card-list__title")
    (orStr (safeText card "a.base-card__full-link")
      (orStr (safeText card "h3.base-search-card__title")
        (safeText card "h3")))

/-- The `industries` extraction of `_parse_single_card`: all `li`
descendants of the industry-list container, in document order (selected
tags are always truthy in bs4, so the `if li` guard keeps every one). -/
def industriesOf (card : Node) : List String :=
  match card.selectOne "ul.job-card-container__industry-list" with
  | some el => (el.select "li").map (fun li => li.getText "")
  | none => []

/-- `_parse_single_card`: `None` when every title selector comes up
empty, otherwise a `JobPosting` whose remaining fields degrade to empty
values. -/
def parseSingleCard (card : Node) : Option JobPosting :=
  let title := titleOf card
  if title = "" then none
  else
    some
      { job_title := title
        company_name :=
          orStr (safeText card "a.job-card-container__company-name")
            (orStr (safeText card "a.base-search-card__subtitle")
              (safeText card "span.job-card-container__primary-description"))
        location :=
          orStr (safeText card "span.job-card-container__metadata-item")
            (safeText card "span.job-search-card__location")
        date_posted :=
          orStr (safeText card "time")
            (orStr (safeText card "div.job-card-container__listed-time")
              (safeText card "div.job-search-card__listdate"))
        job_description :=
          match card.selectOne "div.job-card-list__insight" with
          | some el => el.getText " "
          | none => ""
        seniority_level :=
          safeText card "span.job-card-container__metadata-item--seniority"
        employment_type :=
          safeText card "span.job-card-container__metadata-item--employment-type"
        industries := industriesOf card }

/-- Card discovery of `parse_listings`: the primary container selector,
falling back to the legacy one only when the primary matches nothing. -/
def cardsOf (doc : Node) : List Node :=
  let cards := doc.select "li.jobs-search-results__list-item"
  if cards.isEmpty then doc.select "div.base-card" else cards

/-- `parse_listings`: parse each discovered card, keeping the truthy
(`Some`) results. -/
def parseListings (doc : Node) : List JobPosting :=
  (cardsOf doc).filterMap parseSingleCard

/-! ## URL construction (`_append_start_param` and its `urllib.parse`
collaborators)

`urlparse`, `parse_qsl`, `urlencode` and `urlunparse` are modelled after
their CPython semantics: `parse_qsl` (defaults: `keep_blank_values=False`,
`strict_parsing=False`, separator `&`) drops pieces that have no `=` or an
empty value and percent-decodes names and values; `dict(...)` keeps, for
each key, the value of its last occurrence, at the position of the key's
first occurrence; `urlencode` re-encodes with `quote_plus`.  Percent
coding operates on UTF-8 bytes. -/

/-- Split a character list at the first occurrence of `c`
(`str.split(c, 1)` when it occurs). -/
def splitFirstAux (c : Char) : List Char → Option (List Char × List Char)
  | [] => none
  | x :: xs =>
    if x = c then some ([], xs)
    else
      match splitFirstAux c xs with
      | some (l, r) => some (x :: l, r)
      | none => none

def splitFirst (s : String) (c : Char) : Option (String × String) :=
  match splitFirstAux c s.toList with
  | some (l, r) => some (String.mk l, String.mk r)
  | none => none

/-- Split a character list at the last occurrence of `c`. -/
def splitLastAux (c : Char) (cs : List Char) : Option (List Char × List Char) :=
  match splitFirstAux c cs.reverse with
  | some (rAfter, rBefore) => some (rBefore.reverse, rAfter.reverse)
  | none => none

/-- The six-field result of `urllib.parse.urlparse`. -/
structure ParsedUrl where
  scheme : String
  netloc : String
  path : String
  params : String
  query : String
  fragment : String
  deriving Repr, DecidableEq

def isSchemeChar (c : Char) : Bool :=
  c.isAlphanum || c = '+' || c = '-' || c = '.'

/-- The netloc runs from after `//` up to the first `/`, `?` or `#`. -/
def splitNetloc (s : String) : String × String :=
  let stop := fun (c : Char) => c = '/' || c = '?' || c = '#'
  (String.mk (s.toList.takeWhile (fun c => !stop c)),
   String.mk (s.toList.dropWhile (fun c => !stop c)))

/-- `_splitparams`: the `params` component is whatever follows a `;` in
the last path segment. -/
def splitParams (path : String) : String × String :=
  match splitLastAux '/' path.toList with
  | some (pre, seg) =>
    match splitFirstAux ';' seg with
    | some (a, b) => (String.mk (pre ++ '/' :: a), String.mk b)
    | none => (path, "")
  | none =>
    match splitFirstAux ';' path.toList with
    | some (a, b) => (String.mk a, String.mk b)
    | none => (path, "")

/-- `urllib.parse.urlparse`: scheme (lowercased, only when the part
before `:` is a well-formed scheme), netloc after `//`, then fragment
after `#`, query after `?`, and path params after `;`. -/
def urlparse (url : String) : ParsedUrl :=
  let (scheme, rest) :=
    match splitFirst url ':' with
    | some (before, after) =>
      if before ≠ "" ∧ (before.data.headD 'a').isAlpha ∧
          before.data.all isSchemeChar then
        (strToLower before, after)
      else ("", url)
    | none => ("", url)
  let (netloc, rest2) :=
    if strStartsWith rest "//" then splitNetloc (strDrop rest 2)
    else ("", rest)
  let (rest3, fragment) :=
    match splitFirst rest2 '#' with
    | some (b, a) => (b, a)
    | none => (rest2, "")
  let (path0, query) :=
    match splitFirst rest3 '?' with
    | some (b, a) => (b, a)
    | none => (rest3, "")
  let (path, params) := splitParams path0
  ⟨scheme, netloc, path, params, query, fragment⟩

/-- `urllib.parse.urlunparse` (via `urlunsplit`). -/
def urlunparse (u : ParsedUrl) : String :=
  let url0 := if u.params ≠ "" then u.path ++ ";" ++ u.params else u.path
  let url1 :=
    if u.netloc ≠ "" ∨ strStartsWith url0 "//" then
      "//" ++ u.netloc ++
        (if url0 ≠ "" ∧ ¬ strStartsWith url0 "/" then "/" ++ url0 else url0)
    else url0
  let url2 := if u.scheme ≠ "" then u.scheme ++ ":" ++ url1 else url1
  let url3 := if u.query ≠ "" then url2 ++ "?" ++ u.query else url2
  if u.fragment ≠ "" then url3 ++ "#" ++ u.fragment else url3

def hexDigitChar (n : Nat) : Char :=
  if n < 10 then Char.ofNat (48 + n) else Char.ofNat (65 + (n - 10))

/-- `quote_plus` on a single UTF-8 byte: keep the always-safe bytes,
turn a space into `+`, percent-encode the rest (uppercase hex). -/
def quoteByte (b : Nat) : List Char :=
  let c := Char.ofNat b
  if b = 32 then ['+']
  else if b < 128 && (c.isAlphanum || c = '_' || c = '.' || c = '-' || c = '~')
  then [c]
  else ['%', hexDigitChar (b / 16), hexDigitChar (b % 16)]

def quotePlus (s : String) : String :=
  String.mk (((s.data.flatMap charUtf8).map quoteByte).flatten)

/-- `urllib.parse.urlencode` with its default `quote_via=quote_plus`. -/
def urlencode (pairs : List (String × String)) : String :=
  String.intercalate "&"
    (pairs.map (fun p => quotePlus p.1 ++ "=" ++ quotePlus p.2))

def isHexDigitChar (c : Char) : Bool :=
  c.isDigit || ('a' ≤ c && c ≤ 'f') || ('A' ≤ c && c ≤ 'F')

def hexVal (c : Char) : Nat :=
  if c.isDigit then c.toNat - 48
  else if 'a' ≤ c && c ≤ 'f' then c.toNat - 87
  else c.toNat - 55

/-- Percent-decoding to raw bytes: `%XX` with two hex digits becomes one
byte, a stray `%` stays literal, other characters contribute their UTF-8
bytes. -/
def percentDecodeBytes : List Char → List Nat
  | [] => []
  | '%' :: h1 :: h2 :: rest =>
    if isHexDigitChar h1 && isHexDigitChar h2 then
      (16 * hexVal h1 + hexVal h2) :: percentDecodeBytes rest
    else charUtf8 '%' ++ percentDecodeBytes (h1 :: h2 :: rest)
  | '%' :: rest => charUtf8 '%' ++ percentDecodeBytes rest
  | c :: rest => charUtf8 c ++ percentDecodeBytes rest

/-- UTF-8 decoding with U+FFFD replacement for invalid sequences
(CPython decodes the percent-decoded bytes with `errors="replace"`). -/
def utf8Decode : List Nat → List Char
  | [] => []
  | b :: rest =>
    if b < 0x80 then Char.ofNat b :: utf8Decode rest
    else if 0xC2 ≤ b ∧ b ≤ 0xDF then
      match rest with
      | b2 :: rest2 =>
        if 0x80 ≤ b2 ∧ b2 < 0xC0 then
          Char.ofNat ((b - 0xC0) * 64 + (b2 - 0x80)) :: utf8Decode rest2
        else Char.ofNat 0xFFFD :: utf8Decode (b2 :: rest2)
      | [] => [Char.ofNat 0xFFFD]
    else if 0xE0 ≤ b ∧ b ≤ 0xEF then
      match rest with
      | b2 :: b3 :: rest3 =>
        if (0x80 ≤ b2 ∧ b2 < 0xC0) ∧ (0x80 ≤ b3 ∧ b3 < 0xC0) then
          Char.ofNat ((b - 0xE0) * 4096 + (b2 - 0x80) * 64 + (b3 - 0x80)) ::
            utf8Decode rest3
        else Char.ofNat 0xFFFD :: utf8Decode (b2 :: b3 :: rest3)
      | _ => [Char.ofNat 0xFFFD]
    else if 0xF0 ≤ b ∧ b ≤ 0xF4 then
      match rest with
      | b2 :: b3 :: b4 :: rest4 =>
        if (0x80 ≤ b2 ∧ b2 < 0xC0) ∧ (0x80 ≤ b3 ∧ b3 < 0xC0) ∧
            (0x80 ≤ b4 ∧ b4 < 0xC0) then
          Char.ofNat ((b - 0xF0) * 262144 + (b2 - 0x80) * 4096 +
            (b3 - 0x80) * 64 + (b4 - 0x80)) :: utf8Decode rest4
        else Char.ofNat 0xFFFD :: utf8Decode (b2 :: b3 :: b4 :: rest4)
      | _ => [Char.ofNat 0xFFFD]
    else Char.ofNat 0xFFFD :: utf8Decode rest

/-- `urllib.parse.unquote_plus`: `+` to space, then percent-decode. -/
def unquotePlus (s : String) : String :=
  String.mk (utf8Decode (percentDecodeBytes
    (s.toList.map (fun c => if c = '+' then ' ' else c))))

/-- `urllib.parse.parse_qsl` with its defaults: split on `&`, skip pieces
without `=` or with an empty value, percent-decode names and values. -/
def parse_qsl (qs : String) : List (String × String) :=
  (splitOnChar '&' qs).filterMap (fun piece =>
    match splitFirst piece '=' with
    | none => none
    | some (name, value) =>
      if value = "" then none
      else some (unquotePlus name, unquotePlus value))

/-- One `d[k] = v` step on a Python dict rendered as an association list
in insertion order: overwrite in place, or append a new key. -/
def dictInsert (d : List (String × String)) (k v : String) :
    List (String × String) :=
  if d.any (fun p => p.1 = k) then
    d.map (fun p => if p.1 = k then (k, v) else p)
  else d ++ [(k, v)]

/-- `dict(pairs)`: left fold of `dictInsert` — for each key the value of
its last occurrence, placed at the key's first occurrence. -/
def dictOfPairs (pairs : List (String × String)) : List (String × String) :=
  pairs.foldl (fun d p => dictInsert d p.1 p.2) []

/-- The query rewrite inside `_append_start_param`:
`query = dict(parse_qsl(...)); query["start"] = str(start)`. -/
def updateQueryPairs (pairs : List (String × String)) (start : Nat) :
    List (String × String) :=
  dictInsert (dictOfPairs pairs) "start" (toString start)

/-- `_append_start_param(base_url, start)`. -/
def append_start_param (base_url : String) (start : Nat) : String :=
  let parsed := urlparse base_url
  let new_query := urlencode (updateQueryPairs (parse_qsl parsed.query) start)
  urlunparse { parsed with query := new_query }

/-! ## Spec-side definition for the `industries` refinement claim -/

def directChildren : Node → List Node
  | .text _ => []
  | .element _ _ ch => ch.toList

def isLiElement : Node → Bool
  | .element t _ _ => t = "li"
  | .text _ => false

/-- What the spec asserts `industries` to be: the trimmed texts of the
*direct* list-item children of the industry-list container, in document
order (the code instead collects every `li` *descendant*). -/
def industriesSpec (card : Node) : List String :=
  match card.selectOne "ul.job-card-container__industry-list" with
  | some el => ((directChildren el).filter isLiElement).map
      (fun li => li.getText "")
  | none => []

/-! ## Concrete sample data, used to instantiate the theorems -/

def samplePosting : JobPosting :=
  { job_title := "Software Engineer"
    company_name := "Techify Inc."
    location := "New York, NY"
    date_posted := "3 days ago"
    job_description := "Develop and maintain backend APIs."
    seniority_level := "Mid-Level"
    employment_type := "Full-Time"
    industries := ["Software Development", "Information Technology"] }

def sampleDict : JobDict := samplePosting.to_dict

/-- The industry list of the fixture card in `tests/test_extraction.py`. -/
def sampleUl : Node :=
  el "ul" ["job-card-container__industry-list"]
    [ el "li" [] [.text "Software Development"]
    , el "li" [] [.text "Information Technology"] ]

/-- The fixture card of `tests/test_extraction.py` (`SAMPLE_HTML`). -/
def sampleCard : Node :=
  el "div" ["base-card"]
    [ el "h3" ["base-search-card__title"] [.text "Software Engineer"]
    , el "a" ["job-card-container__company-name"] [.text "Techify Inc."]
    , el "span" ["job-search-card__location"] [.text "New York, NY"]
    , el "time" [] [.text "3 days ago"]
    , el "div" ["job-card-list__insight"]
        [.text " Develop and maintain backend APIs using Python and Node.js. "]
    , el "span" ["job-card-container__metadata-item--seniority"]
        [.text "Mid-Level"]
    , el "span" ["job-card-container__metadata-item--employment-type"]
        [.text "Full-Time"]
    , sampleUl ]

/-- The fixture document: one result-list item wrapping `sampleCard`. -/
def sampleDoc : Node :=
  el "[document]" []
    [ el "html" []
      [ el "body" []
        [ el "ul" ["jobs-search__results-list"]
          [ el "li" ["jobs-search-results__list-item"] [sampleCard] ] ] ] ]

/-- A document with no matching card container at all. -/
def emptyDoc : Node :=
  el "[document]" []
    [ el "html" [] [ el "body" [] [.text "nothing here"] ] ]

/-- The record `parse_listings` extracts from `sampleDoc`. -/
def sampleParsed : JobPosting :=
  { job_title := "Software Engineer"
    company_name := "Techify Inc."
    location := "New York, NY"
    date_posted := "3 days ago"
    job_description := "Develop and maintain backend APIs using Python and Node.js."
    seniority_level := "Mid-Level"
    employment_type := "Full-Time"
    industries := ["Software Development", "Information Technology"] }

/-- A card whose industry list contains a nested list: its direct `li`
child has text "AB" (own text "A" plus nested "B"), and its `li`
descendants are that child followed by the nested `li` with text "B". -/
def nestedCard : Node :=
  el "div" ["base-card"]
    [ el "h3" [] [.text "T"]
    , el "ul" ["job-card-container__industry-list"]
        [ el "li" []
            [ .text "A"
            , el "ul" [] [el "li" [] [.text "B"]] ] ] ]

/-! ### Lemmas about the fetch loop -/

theorem fetchAux_all_error (f : Nat → Except String String) :
    ∀ (s a : Nat) (last : Option String),
      (∀ i, a ≤ i → i ≤ a + s → ∃ e, f i = .error e) →
      ∃ e, f (a + s) = .error e ∧
        fetchAux f a (s + 1) last = .error (.fetchError e) := by
  intro s
  induction s with
  | zero =>
    intro a last h
    obtain ⟨e, he⟩ := h a le_rfl (by omega)
    exact ⟨e, by simpa using he, by simp [fetchAux, he]⟩
  | succ s ih =>
    intro a last h
    obtain ⟨e0, he0⟩ := h a le_rfl (by omega)
    obtain ⟨e, hf, heq⟩ := ih (a + 1) (some e0)
      (fun i h1 h2 => h i (by omega) (by omega))
    refine ⟨e, by rw [show a + (s + 1) = a + 1 + s by omega]; exact hf, ?_⟩
    rw [show s + 1 + 1 = (s + 1) + 1 from rfl]
    simp only [fetchAux, he0]
    exact heq

theorem fetchAux_first_ok (f : Nat → Except String String) :
    ∀ (r a : Nat) (last : Option String) (k : Nat) (t : String),
      a ≤ k → k < a + r → f k = .ok t →
      (∀ i, a ≤ i → i < k → ∃ e, f i = .error e) →
      fetchAux f a r last = .ok t := by
  intro r
  induction r with
  | zero => intro a last k t h1 h2 _ _; omega
  | succ r ih =>
    intro a last k t h1 h2 hk hfail
    rcases eq_or_ne k a with rfl | hne
    · simp [fetchAux, hk]
    · obtain ⟨e, he⟩ := hfail a le_rfl (by omega)
      simp only [fetchAux, he]
      exact ih (a + 1) (some e) k t (by omega) (by omega) hk
        (fun i hi1 hi2 => hfail i (by omega) hi2)

theorem fetchAux_error_all_error (f : Nat → Except String String) :
    ∀ (r a : Nat) (last : Option String),
      (∃ fe, fetchAux f a r last = .error fe) →
      ∀ i, a ≤ i → i < a + r → ∃ e, f i = .error e := by
  intro r
  induction r with
  | zero => intro a last _ i h1 h2; omega
  | succ r ih =>
    intro a last herr i h1 h2
    cases hfa : f a with
    | ok t =>
      obtain ⟨fe, hfe⟩ := herr
      simp [fetchAux, hfa] at hfe
    | error e =>
      rcases eq_or_ne i a with rfl | hne
      · exact ⟨e, hfa⟩
      · refine ih (a + 1) (some e) ?_ i (by omega) (by omega)
        obtain ⟨fe, hfe⟩ := herr
        simp only [fetchAux, hfa] at hfe
        exact ⟨fe, hfe⟩

/-! ### Lemmas about the pagination loop -/

/-- If the accumulator is still below the cap, the inner loop appends
exactly the first `m - acc.length` jobs of the page (all of them when the
page is shorter), converted by `to_dict`, in order. -/
theorem appendUpTo_eq_take (acc : List JobDict) (jobs : List JobPosting)
    (m : Nat) (h : acc.length < m) :
    appendUpTo acc jobs m =
      acc ++ (jobs.take (m - acc.length)).map JobPosting.to_dict := by
  induction jobs generalizing acc with
  | nil => simp [appendUpTo]
  | cons j rest ih =>
    rw [show appendUpTo acc (j :: rest) m =
      (if m ≤ (acc ++ [j.to_dict]).length then acc ++ [j.to_dict]
       else appendUpTo (acc ++ [j.to_dict]) rest m) from rfl]
    by_cases hm : m ≤ (acc ++ [j.to_dict]).length
    · rw [if_pos hm]
      have hone : m - acc.length = 1 := by
        simp only [List.length_append, List.length_cons, List.length_nil] at hm
        omega
      rw [hone]
      simp
    · rw [if_neg hm]
      have hlt : (acc ++ [j.to_dict]).length < m := Nat.lt_of_not_le hm
      rw [ih (acc ++ [j.to_dict]) hlt, List.append_assoc]
      have hk : ∃ k, m - acc.length = k + 1 :=
        ⟨m - acc.length - 1, by omega⟩
      obtain ⟨k, hk⟩ := hk
      have h2 : m - (acc ++ [j.to_dict]).length = k := by
        simp only [List.length_append, List.length_cons, List.length_nil]
        omega
      rw [hk, h2, List.take_succ_cons, List.map_cons]
      simp

theorem appendUpTo_length_le (acc : List JobDict) (jobs : List JobPosting)
    (m : Nat) (h : acc.length < m) :
    (appendUpTo acc jobs m).length ≤ m := by
  rw [appendUpTo_eq_take acc jobs m h]
  simp only [List.length_append, List.length_map, List.length_take]
  omega

theorem scrapeAux_fst_length_le (pages : Nat → List JobPosting)
    (maxJobs : Nat) :
    ∀ (d start : Nat) (acc : List JobDict) (fetches : Nat),
      maxJobs - acc.length ≤ d → acc.length ≤ maxJobs →
      ((scrapeAux pages maxJobs start acc fetches).1).length ≤ maxJobs := by
  intro d
  induction d with
  | zero =>
    intro start acc fetches hd h
    rw [scrapeAux]
    have hlt : ¬ acc.length < maxJobs := by omega
    simp only [dif_neg hlt]
    exact h
  | succ d ih =>
    intro start acc fetches hd h
    rw [scrapeAux]
    by_cases h1 : acc.length < maxJobs
    · simp only [dif_pos h1]
      by_cases h2 : pages start = []
      · simp only [dif_pos h2]
        exact h
      · simp only [dif_neg h2]
        have hgt := length_appendUpTo_lt acc (pages start) maxJobs h2
        have hle := appendUpTo_length_le acc (pages start) maxJobs h1
        exact ih (start + 25) (appendUpTo acc (pages start) maxJobs)
          (fetches + 1) (by omega) hle
    · simp only [dif_neg h1]
      exact h

/-! ### Lemmas about the query-dictionary rewrite -/

theorem lookup_map_overwrite_ne (d : List (String × String)) (a b k : String)
    (hk : k ≠ a) :
    (d.map (fun p => if p.1 = a then (a, b) else p)).lookup k = d.lookup k := by
  induction d with
  | nil => rfl
  | cons p d ih =>
    obtain ⟨p1, p2⟩ := p
    by_cases hp : p1 = a
    · subst hp
      rw [List.map_cons, if_pos rfl, List.lookup_cons, List.lookup_cons,
        beq_eq_false_iff_ne.mpr hk]
      simpa using ih
    · rw [List.map_cons, if_neg hp, List.lookup_cons, List.lookup_cons]
      cases k == p1 with
      | true => rfl
      | false => simpa using ih

theorem lookup_map_overwrite_self (d : List (String × String)) (a b : String)
    (h : d.any (fun p => p.1 = a) = true) :
    (d.map (fun p => if p.1 = a then (a, b) else p)).lookup a = some b := by
  induction d with
  | nil => simp at h
  | cons p d ih =>
    obtain ⟨p1, p2⟩ := p
    by_cases hp : p1 = a
    · subst hp
      rw [List.map_cons, if_pos rfl, List.lookup_cons, beq_self_eq_true]
    · simp only [List.any_cons, Bool.or_eq_true, decide_eq_true_eq] at h
      have h2 : d.any (fun p => p.1 = a) = true := by
        rcases h with h | h
        · exact absurd h hp
        · exact h
      rw [List.map_cons, if_neg hp, List.lookup_cons,
        beq_eq_false_iff_ne.mpr (fun he => hp he.symm)]
      simpa using ih h2

theorem lookup_eq_none_of_any_eq_false (d : List (String × String)) (a : String)
    (h : d.any (fun p => p.1 = a) = false) : d.lookup a = none := by
  induction d with
  | nil => rfl
  | cons p d ih =>
    obtain ⟨p1, p2⟩ := p
    simp only [List.any_cons, Bool.or_eq_false_iff, decide_eq_false_iff_not] at h
    rw [List.lookup_cons, beq_eq_false_iff_ne.mpr (fun he => h.1 he.symm)]
    exact ih (by simpa using h.2)

theorem lookup_append_pairs (l1 l2 : List (String × String)) (k : String) :
    (l1 ++ l2).lookup k = (l1.lookup k).or (l2.lookup k) := by
  induction l1 with
  | nil =>
    rw [List.nil_append]
    cases l2.lookup k <;> rfl
  | cons p l1 ih =>
    obtain ⟨p1, p2⟩ := p
    rw [List.cons_append, List.lookup_cons, List.lookup_cons]
    cases k == p1 with
    | true => rfl
    | false => simpa using ih

/-- A `d[k] = v` assignment: `k` now maps to `v`, every other key is
untouched. -/
theorem lookup_dictInsert (d : List (String × String)) (a b k : String) :
    (dictInsert d a b).lookup k = if k = a then some b else d.lookup k := by
  rw [dictInsert]
  by_cases h : d.any (fun p => p.1 = a)
  · rw [if_pos h]
    by_cases hk : k = a
    · subst hk
      rw [if_pos rfl]
      exact lookup_map_overwrite_self d k b h
    · rw [if_neg hk]
      exact lookup_map_overwrite_ne d a b k hk
  · rw [if_neg h, lookup_append_pairs]
    by_cases hk : k = a
    · subst hk
      have hfalse : d.any (fun p => p.1 = k) = false := by
        cases hb : d.any (fun p => p.1 = k)
        · rfl
        · exact absurd hb h
      rw [lookup_eq_none_of_any_eq_false d k hfalse]
      simp [List.lookup, Option.or]
    · rw [if_neg hk]
      have : (k == a) = false := beq_eq_false_iff_ne.mpr hk
      cases hd : d.lookup k <;> simp [Option.or, List.lookup, this]

/-- A `d[k] = v` assignment keeps the key order, appending `k` only when
it is new. -/
theorem keys_dictInsert (d : List (String × String)) (a b : String) :
    (dictInsert d a b).map Prod.fst =
      if a ∈ d.map Prod.fst then d.map Prod.fst
      else d.map Prod.fst ++ [a] := by
  have hmem : (d.any (fun p => p.1 = a) = true) ↔ a ∈ d.map Prod.fst := by
    simp only [List.any_eq_true, decide_eq_true_eq, List.mem_map]
  rw [dictInsert]
  by_cases h : d.any (fun p => p.1 = a)
  · rw [if_pos h, if_pos (hmem.mp h), List.map_map]
    exact List.map_congr_left (fun p _ => by by_cases hp : p.1 = a <;> simp [hp])
  · rw [if_neg h, if_neg (fun hm => h (hmem.mpr hm))]
    simp

/-- `dict(pairs)` looks keys up at their *last* occurrence in `pairs`. -/
theorem lookup_dictOfPairs (pairs : List (String × String)) (k : String) :
    (dictOfPairs pairs).lookup k = pairs.reverse.lookup k := by
  suffices h : ∀ d : List (String × String),
      ((pairs.foldl (fun d p => dictInsert d p.1 p.2) d).lookup k) =
        (pairs.reverse.lookup k).or (d.lookup k) by
    rw [dictOfPairs, h []]
    cases pairs.reverse.lookup k <;> simp [Option.or, List.lookup]
  induction pairs with
  | nil => intro d; simp [Option.or, List.lookup]
  | cons p ps ih =>
    intro d
    rw [List.foldl_cons, ih, List.reverse_cons, lookup_append_pairs]
    cases hps : ps.reverse.lookup k with
    | some v => simp [Option.or]
    | none =>
      simp only [Option.or, lookup_dictInsert, List.lookup]
      by_cases hk : k = p.1
      · rw [if_pos hk, beq_iff_eq.mpr hk]
      · rw [if_neg hk, beq_eq_false_iff_ne.mpr hk]

/-- `dict(pairs)` has pairwise distinct keys, and `dictInsert` keeps it
so. -/
theorem nodup_keys_dictOfPairs (pairs : List (String × String)) :
    ((dictOfPairs pairs).map Prod.fst).Nodup := by
  suffices h : ∀ d : List (String × String), (d.map Prod.fst).Nodup →
      ((pairs.foldl (fun d p => dictInsert d p.1 p.2) d).map Prod.fst).Nodup by
    exact h [] (by simp)
  induction pairs with
  | nil => intro d hd; simpa using hd
  | cons p ps ih =>
    intro d hd
    rw [List.foldl_cons]
    apply ih
    rw [keys_dictInsert]
    by_cases hk : p.1 ∈ d.map Prod.fst
    · rw [if_pos hk]; exact hd
    · rw [if_neg hk]
      refine hd.append (List.nodup_singleton _) ?_
      intro a ha hb
      rw [List.mem_singleton] at hb
      exact hk (hb ▸ ha)

theorem nodup_keys_dictInsert (d : List (String × String)) (a b : String)
    (hd : (d.map Prod.fst).Nodup) :
    ((dictInsert d a b).map Prod.fst).Nodup := by
  rw [keys_dictInsert]
  by_cases hk : a ∈ d.map Prod.fst
  · rw [if_pos hk]; exact hd
  · rw [if_neg hk]
    refine hd.append (List.nodup_singleton _) ?_
    intro x hx hb
    rw [List.mem_singleton] at hb
    exact hk (hb ▸ hx)

/-! ### Lemmas about the per-card parser -/

theorem parseSingleCard_eq_none_of_title (c : Node) (h : titleOf c = "") :
    parseSingleCard c = none := by
  simp [parseSingleCard, h]

theorem parseSingleCard_eq_some (c : Node) (h : titleOf c ≠ "") :
    ∃ j, parseSingleCard c = some j ∧ j.job_title = titleOf c := by
  simp only [parseSingleCard, if_neg h]
  exact ⟨_, rfl, rfl⟩

theorem parseSingleCard_title_eq (c : Node) (j : JobPosting)
    (h : parseSingleCard c = some j) : j.job_title = titleOf c := by
  by_cases ht : titleOf c = ""
  · rw [parseSingleCard_eq_none_of_title c ht] at h
    exact Option.noConfusion h
  · obtain ⟨j2, hj2, ht2⟩ := parseSingleCard_eq_some c ht
    rw [hj2, Option.some.injEq] at h
    rw [← h]
    exact ht2

theorem length_filterMap_parseSingleCard (cs : List Node) :
    (cs.filterMap parseSingleCard).length =
      cs.length - (cs.filter (fun c => titleOf c == "")).length := by
  induction cs with
  | nil => rfl
  | cons c cs ih =>
    have hle := List.length_filter_le (fun c => titleOf c == "") cs
    by_cases h : titleOf c = ""
    · rw [List.filterMap_cons, parseSingleCard_eq_none_of_title c h,
        List.filter_cons, if_pos (beq_iff_eq.mpr h)]
      simp only [List.length_cons]
      omega
    · obtain ⟨j, hj, _⟩ := parseSingleCard_eq_some c h
      rw [List.filterMap_cons, hj, List.filter_cons,
        if_neg (fun hb => h (beq_iff_eq.mp hb))]
      simp only [List.length_cons]
      omega

/-! ## The claims -/

/-- Claim C1: for every attempt behaviour, when all `maxRetries` attempts
fail, `_fetch_page` fails with the propagated error wrapping the last
observed failure; it never fails while some attempt in range succeeds
(first success is returned as the full response text), and a failure
implies every one of the `maxRetries` attempts failed. -/
theorem fetch_retry_exhaustion (f : Nat → Except String String) (n : Nat)
    (hn : 1 ≤ n) :
    ((∀ i, 1 ≤ i → i ≤ n → ∃ e, f i = .error e) →
      ∃ e, f n = .error e ∧ fetchPage f n = .error (.fetchError e)) ∧
    (∀ k t, 1 ≤ k → k ≤ n → f k = .ok t →
      (∀ i, 1 ≤ i → i < k → ∃ e, f i = .error e) →
      fetchPage f n = .ok t) ∧
    (∀ fe, fetchPage f n = .error fe →
      ∀ i, 1 ≤ i → i ≤ n → ∃ e, f i = .error e) := by
  obtain ⟨s, rfl⟩ : ∃ s, n = s + 1 := ⟨n - 1, by omega⟩
  refine ⟨?_, ?_, ?_⟩
  · intro h
    obtain ⟨e, hf, heq⟩ := fetchAux_all_error f s 1 none
      (fun i h1 h2 => h i h1 (by omega))
    refine ⟨e, ?_, heq⟩
    rwa [show (1 : Nat) + s = s + 1 by omega] at hf
  · intro k t h1 h2 hk hfail
    exact fetchAux_first_ok f (s + 1) 1 none k t h1 (by omega) hk hfail
  · intro fe hfe i h1 h2
    exact fetchAux_error_all_error f (s + 1) 1 none ⟨fe, hfe⟩ i h1 (by omega)

theorem fetch_retry_exhaustion_witness :
    fetchPage (fun i => if i = 2 then Except.ok "page" else Except.error "boom")
      3 = Except.ok "page" :=
  (fetch_retry_exhaustion
      (fun i => if i = 2 then Except.ok "page" else Except.error "boom") 3
      (by omega)).2.1 2 "page" (by omega) (by omega) rfl
    (fun i hi1 hi2 => ⟨"boom", by
      have hi : i = 1 := by omega
      subst hi
      rfl⟩)

/-- Claim C2 (counterexample): it is not true that every erroring call of
`DataExporter.export` performs no file-system effect: with a non-empty
record list, an unknown format and a missing parent directory, the parent
directory is created before the `ValueError` is raised. -/
theorem export_io_before_error_counterexample :
    ¬ (∀ (records : List JobDict) (fmt : String) (pe : Bool),
        (exportData records fmt pe).2.isSome = true →
        (exportData records fmt pe).1 = []) := by
  intro h
  have h2 := h [sampleDict] "yaml" false rfl
  rw [show (exportData [sampleDict] "yaml" false).1 = [IOEvent.makeDirs]
    from rfl] at h2
  exact List.cons_ne_nil _ _ h2

/-- Claim C2 (amended): an empty record list is rejected before any
file-system effect; a non-empty list with an unknown (lowercased) format
is rejected after the parent directory has been ensured (possibly
creating it) but before any file write; a known format ensures the
parent directory and performs exactly one file write, with no error. -/
theorem export_error_paths (records : List JobDict) (fmt : String)
    (pe : Bool) :
    (records = [] →
      exportData records fmt pe = ([], some "No records to export.")) ∧
    (records ≠ [] →
      strToLower fmt ∉ (["json", "csv", "excel", "xml", "html"] : List String) →
      exportData records fmt pe =
        (ensure_parent_dir pe,
         some ("Unsupported export format: " ++ strToLower fmt))) ∧
    (records ≠ [] →
      strToLower fmt ∈ (["json", "csv", "excel", "xml", "html"] : List String) →
      exportData records fmt pe =
        (ensure_parent_dir pe ++ [IOEvent.write (strToLower fmt)], none)) := by
  refine ⟨?_, ?_, ?_⟩
  · rintro rfl
    rfl
  · intro hne hnot
    obtain ⟨r, rs, rfl⟩ := List.exists_cons_of_ne_nil hne
    simp only [List.mem_cons, List.not_mem_nil, or_false, not_or] at hnot
    obtain ⟨h1, h2, h3, h4, h5⟩ := hnot
    simp [exportData, h1, h2, h3, h4, h5]
  · intro hne hmem
    obtain ⟨r, rs, rfl⟩ := List.exists_cons_of_ne_nil hne
    simp only [List.mem_cons, List.not_mem_nil, or_false] at hmem
    rcases hmem with h | h | h | h | h <;> simp [exportData, h]

theorem export_error_paths_witness :
    exportData [sampleDict] "json" true = ([IOEvent.write "json"], none) := by
  have h := (export_error_paths [sampleDict] "json" true).2.2
    (List.cons_ne_nil _ _) (by decide)
  rw [show strToLower "json" = "json" from rfl,
    show ensure_parent_dir true = [] from rfl] at h
  simpa using h

/-- Claim C3: the record list returned by `scrape_search` never exceeds
`maxRecords`; and with a fetch/extract stub yielding 25 records on every
page and `maxRecords = 10`, it returns exactly the first 10 records of
the first page, in order, from a single fetch call. -/
theorem scrape_search_cap :
    (∀ (pages : Nat → List JobPosting) (maxJobs : Nat),
      ((scrapeSearch pages maxJobs).1).length ≤ maxJobs) ∧
    (∀ pages : Nat → List JobPosting, (∀ s, (pages s).length = 25) →
      scrapeSearch pages 10 =
        (((pages 0).take 10).map JobPosting.to_dict, 1)) := by
  constructor
  · intro pages maxJobs
    exact scrapeAux_fst_length_le pages maxJobs maxJobs 0 [] 0
      (by simp) (by simp)
  · intro pages h
    have h0 : pages 0 ≠ [] := by
      intro hh
      have h25 := h 0
      rw [hh] at h25
      simp at h25
    rw [scrapeSearch, scrapeAux,
      dif_pos (by simp : (([] : List JobDict)).length < 10), dif_neg h0,
      appendUpTo_eq_take [] (pages 0) 10 (by simp)]
    simp only [List.nil_append, List.length_nil, Nat.sub_zero]
    rw [scrapeAux, dif_neg (by
      simp only [List.length_map, List.length_take, h 0]
      omega : ¬ (((pages 0).take 10).map JobPosting.to_dict).length < 10)]

theorem scrape_search_cap_witness :
    scrapeSearch (fun _ => List.replicate 25 samplePosting) 10 =
      (((List.replicate 25 samplePosting).take 10).map JobPosting.to_dict,
       1) :=
  scrape_search_cap.2 (fun _ => List.replicate 25 samplePosting)
    (fun s => by simp)

/-- Claim C4: with a stub yielding N > 0 records at offset 0 and none at
offset 25 (and `maxRecords > N`), `scrape_search` returns exactly those N
records in order from exactly 2 fetch calls; and when the first page
yields no records the result is the empty list, not an error. -/
theorem scrape_search_pagination :
    (∀ (pages : Nat → List JobPosting) (maxJobs N : Nat),
      (pages 0).length = N → 0 < N → N < maxJobs → pages 25 = [] →
      scrapeSearch pages maxJobs = ((pages 0).map JobPosting.to_dict, 2)) ∧
    (∀ (pages : Nat → List JobPosting) (maxJobs : Nat),
      pages 0 = [] → (scrapeSearch pages maxJobs).1 = []) := by
  constructor
  · intro pages maxJobs N hN h0 hmax hempty
    have hne : pages 0 ≠ [] := by
      intro hh
      rw [hh] at hN
      simp at hN
      omega
    rw [scrapeSearch, scrapeAux,
      dif_pos (by simp only [List.length_nil]; omega :
        (([] : List JobDict)).length < maxJobs),
      dif_neg hne,
      appendUpTo_eq_take [] (pages 0) maxJobs
        (by simp only [List.length_nil]; omega)]
    simp only [List.nil_append, List.length_nil, Nat.sub_zero, Nat.zero_add]
    rw [List.take_of_length_le (by rw [hN]; omega)]
    rw [scrapeAux,
      dif_pos (by simp only [List.length_map, hN]; omega :
        ((pages 0).map JobPosting.to_dict).length < maxJobs),
      dif_pos hempty]
  · intro pages maxJobs hempty
    rw [scrapeSearch, scrapeAux]
    by_cases h : (([] : List JobDict)).length < maxJobs
    · rw [dif_pos h, dif_pos hempty]
    · rw [dif_neg h]

theorem scrape_search_pagination_witness :
    scrapeSearch
      (fun start => if start = 0 then [samplePosting, samplePosting] else [])
      1000 =
      ([samplePosting.to_dict, samplePosting.to_dict], 2) := by
  have h := scrape_search_pagination.1
    (fun start => if start = 0 then [samplePosting, samplePosting] else [])
    1000 2 (by simp) (by omega) (by omega) (by simp)
  simpa using h

/-- Claim C5: every record produced by `parse_listings` has a non-empty
title; a card whose four-step title fallback chain yields only empty text
contributes no record, so the record count is the card count minus the
number of such title-less cards. -/
theorem parse_validity_filter (doc : Node) :
    (∀ j ∈ parseListings doc, j.job_title ≠ "") ∧
    (parseListings doc).length =
      (cardsOf doc).length -
        ((cardsOf doc).filter (fun c => titleOf c == "")).length := by
  constructor
  · intro j hj
    simp only [parseListings, List.mem_filterMap] at hj
    obtain ⟨c, hc, hcj⟩ := hj
    rw [parseSingleCard_title_eq c j hcj]
    intro hempty
    rw [parseSingleCard_eq_none_of_title c hempty] at hcj
    exact Option.noConfusion hcj
  · exact length_filterMap_parseSingleCard (cardsOf doc)

theorem parse_validity_filter_witness : sampleParsed.job_title ≠ "" :=
  (parse_validity_filter sampleDoc).1 sampleParsed (by
    rw [show parseListings sampleDoc = [sampleParsed] from rfl]
    exact List.mem_singleton.mpr rfl)

/-- Claim C6 (counterexample): on a card whose industry list nests a
further list, the code collects every `li` descendant (`["AB", "B"]`),
not only the direct list-item children (`["AB"]`) the claim describes. -/
theorem industries_counterexample :
    industriesOf nestedCard = ["AB", "B"] ∧
    industriesSpec nestedCard = ["AB"] ∧
    industriesOf nestedCard ≠ industriesSpec nestedCard :=
  ⟨rfl, rfl, by decide⟩

/-- Claim C6 (amended): `industries` is the sequence of stripped texts of
every `li` *descendant* of the industry-list container, in document
order; an absent container yields the empty sequence. -/
theorem industries_extraction (card : Node) :
    (card.selectOne "ul.job-card-container__industry-list" = none →
      industriesOf card = []) ∧
    (∀ el, card.selectOne "ul.job-card-container__industry-list" = some el →
      industriesOf card = (el.select "li").map (fun li => li.getText "")) := by
  constructor
  · intro h
    simp [industriesOf, h]
  · intro el h
    simp [industriesOf, h]

theorem industries_extraction_witness :
    industriesOf sampleCard =
      (sampleUl.select "li").map (fun li => li.getText "") :=
  (industries_extraction sampleCard).2 sampleUl rfl

/-- Claim C7 (counterexample): `_append_start_param` does not preserve
every other query parameter: a parameter with a blank value (`a=`) is
dropped from the paged URL. -/
theorem append_start_counterexample :
    append_start_param "https://x.test/search?a=&keywords=dev" 0 =
      "https://x.test/search?keywords=dev&start=0" ∧
    "a=" ∈ splitOnChar '&'
      (urlparse "https://x.test/search?a=&keywords=dev").query ∧
    "a=" ∉ splitOnChar '&' (urlparse (append_start_param
      "https://x.test/search?a=&keywords=dev" 0)).query :=
  ⟨rfl, by decide, by decide⟩

/-- Claim C7 (amended): the paged URL rebuilds the query from the parsed
parameters (`parse_qsl` keeps only `key=value` pieces with a non-empty
value): `start` maps to the current offset, every other surviving key
keeps its deduplicated value, and key order is preserved, with `start`
overwritten in place or appended at the end; the claim's concrete
round-trip instance holds. -/
theorem append_start_param_spec :
    (append_start_param "https://x.test/search?keywords=dev" 0 =
      "https://x.test/search?keywords=dev&start=0") ∧
    (∀ (pairs : List (String × String)) (s : Nat),
      (updateQueryPairs pairs s).lookup "start" = some (toString s)) ∧
    (∀ (pairs : List (String × String)) (s : Nat) (k : String),
      k ≠ "start" →
      (updateQueryPairs pairs s).lookup k = (dictOfPairs pairs).lookup k) ∧
    (∀ (pairs : List (String × String)) (s : Nat),
      (updateQueryPairs pairs s).map Prod.fst =
        if "start" ∈ (dictOfPairs pairs).map Prod.fst
        then (dictOfPairs pairs).map Prod.fst
        else (dictOfPairs pairs).map Prod.fst ++ ["start"]) := by
  refine ⟨rfl, ?_, ?_, ?_⟩
  · intro pairs s
    rw [updateQueryPairs, lookup_dictInsert, if_pos rfl]
  · intro pairs s k hk
    rw [updateQueryPairs, lookup_dictInsert, if_neg hk]
  · intro pairs s
    rw [updateQueryPairs, keys_dictInsert]

theorem append_start_param_spec_witness :
    (updateQueryPairs [("keywords", "dev")] 0).lookup "keywords" =
      (dictOfPairs [("keywords", "dev")]).lookup "keywords" :=
  append_start_param_spec.2.2.1 [("keywords", "dev")] 0 "keywords"
    (by decide)

/-- Claim C8: `parse_listings` is total over parsed documents by
construction (it is a Lean function; lxml recovery makes the string-level
front end total), and any document in which neither card selector
matches produces the empty record list. -/
theorem parse_totality (doc : Node)
    (h1 : doc.select "li.jobs-search-results__list-item" = [])
    (h2 : doc.select "div.base-card" = []) :
    parseListings doc = [] := by
  simp [parseListings, cardsOf, h1, h2]

theorem parse_totality_witness : parseListings emptyDoc = [] :=
  parse_totality emptyDoc rfl rfl

/-- Claim C9: card discovery uses the primary result-item selector and
falls back to the legacy selector exactly when the primary yields no
match; the processed card list is one selector's match list, never a
union. -/
theorem card_discovery (doc : Node) :
    (doc.select "li.jobs-search-results__list-item" ≠ [] →
      cardsOf doc = doc.select "li.jobs-search-results__list-item") ∧
    (doc.select "li.jobs-search-results__list-item" = [] →
      cardsOf doc = doc.select "div.base-card") := by
  constructor
  · intro h
    rcases hsel : doc.select "li.jobs-search-results__list-item" with
      _ | ⟨c, cs⟩
    · exact absurd hsel h
    · simp [cardsOf, hsel]
  · intro h
    simp [cardsOf, h]

theorem card_discovery_witness :
    cardsOf sampleDoc = sampleDoc.select "li.jobs-search-results__list-item" :=
  (card_discovery sampleDoc).1 (by
    rw [show sampleDoc.select "li.jobs-search-results__list-item" =
      [el "li" ["jobs-search-results__list-item"] [sampleCard]]
      from rfl]
    exact List.cons_ne_nil _ _)

/-- Claim C10 (counterexample): a duplicated key is collapsed to a single
occurrence, but not always to the value of its *last* occurrence in the
original query string: in `a=1&a=` the last occurrence of `a` carries a
blank value, `parse_qsl` drops it, and the paged URL binds `a` to `1`. -/
theorem duplicate_params_counterexample :
    splitOnChar '&' (urlparse "https://x.test/search?a=1&a=").query =
      ["a=1", "a="] ∧
    append_start_param "https://x.test/search?a=1&a=" 0 =
      "https://x.test/search?a=1&start=0" ∧
    (parse_qsl (urlparse (append_start_param
      "https://x.test/search?a=1&a=" 0)).query).lookup "a" = some "1" :=
  ⟨rfl, rfl, rfl⟩

/-- Claim C10 (amended): every key occurs at most once in the rewritten
query; a key other than `start` is bound to the value of its last
occurrence among the pairs `parse_qsl` retains (occurrences with `=` and
a non-empty value); for `a=1&a=2` the paged URL binds `a=2`. -/
theorem duplicate_params_collapse :
    (∀ (pairs : List (String × String)) (s : Nat),
      ((updateQueryPairs pairs s).map Prod.fst).Nodup) ∧
    (∀ (pairs : List (String × String)) (s : Nat) (k : String),
      k ≠ "start" →
      (updateQueryPairs pairs s).lookup k = pairs.reverse.lookup k) ∧
    (append_start_param "https://x.test/search?a=1&a=2" 0 =
      "https://x.test/search?a=2&start=0") := by
  refine ⟨?_, ?_, rfl⟩
  · intro pairs s
    exact nodup_keys_dictInsert _ _ _ (nodup_keys_dictOfPairs pairs)
  · intro pairs s k hk
    rw [updateQueryPairs, lookup_dictInsert, if_neg hk, lookup_dictOfPairs]

theorem duplicate_params_collapse_witness :
    (updateQueryPairs [("a", "1"), ("a", "2")] 0).lookup "a" =
      ([("a", "1"), ("a", "2")] : List (String × String)).reverse.lookup
        "a" :=
  duplicate_params_collapse.2.1 [("a", "1"), ("a", "2")] 0 "a" (by decide)

end Scraper
